import Mathlib

/-!
Shallow embedding of the digest markdown renderer in
`app/agent/email_template_utils.py`.

Python strings are modelled as `List Char` (with `String` wrappers at the
public boundary).  Each `re` substitution used by the source is embedded as a
bespoke left-to-right scanner; every pattern used by the renderer is
deterministic (each greedy/lazy class is cut off by the very character that
must follow it), so the scanners reproduce the regex engine's behaviour
exactly.  `\d` and `\s` are modelled at ASCII granularity, matching every
input that occurs in the development.  Scanners take a fuel argument; fuel is
always instantiated with more than the length of the input, and every step
consumes at least one character, so the out-of-fuel branch is unreachable.
-/

/-- Whitespace as matched by Python's `\s` / `str.strip` (ASCII range). -/
def isWs (c : Char) : Bool :=
  c == ' ' || c == '\t' || c == '\n' || c == '\r' || c == '\x0b' || c == '\x0c'

/-- Python `str.lstrip()`. -/
def dropLeadWs (s : List Char) : List Char := s.dropWhile isWs

/-- Python `str.rstrip()`. -/
def dropTrailWs (s : List Char) : List Char := (s.reverse.dropWhile isWs).reverse

/-- Python `str.strip()`. -/
def stripWs (s : List Char) : List Char := dropLeadWs (dropTrailWs s)

/-- `html.escape` on one character (quote=True, the source's default). -/
def escChar (c : Char) : List Char :=
  if c = '&' then "&amp;".data
  else if c = '<' then "&lt;".data
  else if c = '>' then "&gt;".data
  else if c = '"' then "&quot;".data
  else if c = '\'' then "&#x27;".data
  else [c]

/-- `html.escape` on a string.  The source's chain of `str.replace` calls
escapes each original character independently, which is exactly this map. -/
def escL (s : List Char) : List Char := (s.map escChar).flatten

/-- Python `str.startswith`. -/
def hasPfx : List Char → List Char → Bool
  | [], _ => true
  | _ :: _, [] => false
  | p :: ps, c :: cs => p == c && hasPfx ps cs

/-- Python `str.endswith`. -/
def hasSfx (p s : List Char) : Bool := hasPfx p.reverse s.reverse

/-- Python `in` (substring containment). -/
def containsSub : List Char → List Char → Bool
  | p, [] => hasPfx p []
  | p, c :: rest => hasPfx p (c :: rest) || containsSub p rest

/-- Characters strictly before the first occurrence of `x`, and the remainder
after it.  This is what a greedy `[^x]+` followed by the literal `x` consumes
(the greedy class cannot extend past the first `x`, and every shorter run is
rejected because the next character is not `x`). -/
def splitAtChar (x : Char) : List Char → Option (List Char × List Char)
  | [] => none
  | c :: cs =>
    if c = x then some ([], cs)
    else
      match splitAtChar x cs with
      | some (a, b) => some (c :: a, b)
      | none => none

/-- One attempt of `\[([^\]]+)\]\(([^)]+)\)` at the head of the string:
returns (link text, url, rest) on success. -/
def linkMatchAt : List Char → Option (List Char × List Char × List Char)
  | [] => none
  | c :: cs =>
    if c = '[' then
      match splitAtChar ']' cs with
      | some (txt, r1) =>
        if txt = [] then none
        else
          match r1 with
          | '(' :: r2 =>
            match splitAtChar ')' r2 with
            | some (url, r3) => if url = [] then none else some (txt, url, r3)
            | none => none
          | _ => none
      | none => none
    else none

/-- One attempt of `mm([^m]+)mm` (for marker `m`, i.e. `\*\*([^*]+)\*\*` or
`__([^_]+)__`) at the head of the string: returns (content, rest). -/
def pairMatchAt (m : Char) : List Char → Option (List Char × List Char)
  | a :: b :: rest =>
    if a = m ∧ b = m then
      let content := rest.takeWhile (· != m)
      if content = [] then none
      else
        match rest.dropWhile (· != m) with
        | x :: y :: r2 => if x = m ∧ y = m then some (content, r2) else none
        | _ => none
    else none
  | _ => none

/-- One attempt of `(?<!m)m(?!m)([^m]+?)(?<!m)m(?!m)` at the head of the
string, given the character preceding the current position (`prev`).  The
inner lookarounds are implied by `[^m]+` being nonempty; the trailing `(?!m)`
rejects the match when the closing marker is doubled. -/
def singleMatchAt (m : Char) (prev : Option Char) : List Char → Option (List Char × List Char)
  | c :: rest =>
    if c = m ∧ prev ≠ some m then
      let content := rest.takeWhile (· != m)
      if content = [] then none
      else
        match rest.dropWhile (· != m) with
        | x :: r2 => if x = m ∧ r2.head? ≠ some m then some (content, r2) else none
        | [] => none
    else none
  | [] => none

/-- Placeholder bookkeeping of `_process_inline_markdown`: the running index
and the `placeholders` dict (insertion-ordered key/fragment pairs). -/
structure PhState where
  idx : Nat
  phs : List (List Char × List Char)
  deriving Repr, DecidableEq

/-- The key `__PLACEHOLDER_{n}__`. -/
def phKey (n : Nat) : List Char := "__PLACEHOLDER_".data ++ (Nat.repr n).data ++ "__".data

/-- `make_placeholder`. -/
def mkPh (frag : List Char) (st : PhState) : List Char × PhState :=
  (phKey st.idx, ⟨st.idx + 1, st.phs ++ [(phKey st.idx, frag)]⟩)

/-- The anchor fragment built by `replace_link`. -/
def linkFrag (txt url : List Char) : List Char :=
  "<a href=\"".data ++ escL url ++
    "\" style=\"color:#1d4ed8;text-decoration:none;font-weight:600;\">".data ++
    escL txt ++ "</a>".data

/-- The `<strong>` fragment built by `replace_bold`. -/
def boldFrag (content : List Char) : List Char :=
  "<strong style=\"font-weight:600;\">".data ++ escL content ++ "</strong>".data

/-- The `<em>` fragment built by `replace_italic`. -/
def italFrag (content : List Char) : List Char :=
  "<em style=\"font-style:italic;\">".data ++ escL content ++ "</em>".data

/-- `re.sub` scan for the link pattern, replacing each match by a fresh
placeholder key. -/
def linkScan : Nat → List Char → PhState → List Char × PhState
  | 0, s, st => (s, st)
  | _ + 1, [], st => ([], st)
  | fuel + 1, c :: rest, st =>
    match linkMatchAt (c :: rest) with
    | some (txt, url, r2) =>
      let p := mkPh (linkFrag txt url) st
      let q := linkScan fuel r2 p.2
      (p.1 ++ q.1, q.2)
    | none =>
      let q := linkScan fuel rest st
      (c :: q.1, q.2)

/-- One attempt of the bold alternation `\*\*([^*]+)\*\*|__([^_]+)__`. -/
def boldMatchAt (s : List Char) : Option (List Char × List Char) :=
  match pairMatchAt '*' s with
  | some r => some r
  | none => pairMatchAt '_' s

/-- `re.sub` scan for the bold alternation. -/
def boldScan : Nat → List Char → PhState → List Char × PhState
  | 0, s, st => (s, st)
  | _ + 1, [], st => ([], st)
  | fuel + 1, c :: rest, st =>
    match boldMatchAt (c :: rest) with
    | some (content, r2) =>
      let p := mkPh (boldFrag content) st
      let q := boldScan fuel r2 p.2
      (p.1 ++ q.1, q.2)
    | none =>
      let q := boldScan fuel rest st
      (c :: q.1, q.2)

/-- One attempt of the italic alternation. -/
def italMatchAt (prev : Option Char) (s : List Char) : Option (List Char × List Char) :=
  match singleMatchAt '*' prev s with
  | some r => some r
  | none => singleMatchAt '_' prev s

/-- `re.sub` scan for the italic alternation; `prev` is the character before
the scan position in the subject string (for the lookbehinds). -/
def italScan : Nat → Option Char → List Char → PhState → List Char × PhState
  | 0, _, s, st => (s, st)
  | _ + 1, _, [], st => ([], st)
  | fuel + 1, prev, c :: rest, st =>
    match italMatchAt prev (c :: rest) with
    | some (content, r2) =>
      let p := mkPh (italFrag content) st
      let q := italScan fuel (some c) r2 p.2
      (p.1 ++ q.1, q.2)
    | none =>
      let q := italScan fuel (some c) rest st
      (c :: q.1, q.2)

/-- One attempt of `__PLACEHOLDER_\d+__` at the head of the string
(the split pattern of the escaping pass). -/
def phTokenAt (s : List Char) : Option (List Char × List Char) :=
  if hasPfx "__PLACEHOLDER_".data s then
    let r := s.drop 14
    let ds := r.takeWhile Char.isDigit
    if ds = [] then none
    else
      match r.dropWhile Char.isDigit with
      | '_' :: '_' :: r2 => some ("__PLACEHOLDER_".data ++ ds ++ ['_', '_'], r2)
      | _ => none
  else none

/-- `re.split(r'(__PLACEHOLDER_\d+__)', s)`: gaps and captured tokens,
interleaved, including empty gaps (exactly as Python produces them). -/
def splitPH : Nat → List Char → List Char → List (List Char)
  | 0, acc, s => [acc.reverse ++ s]
  | _ + 1, acc, [] => [acc.reverse]
  | fuel + 1, acc, c :: rest =>
    match phTokenAt (c :: rest) with
    | some (tok, r2) => acc.reverse :: tok :: splitPH fuel [] r2
    | none => splitPH fuel (c :: acc) rest

/-- The per-part test `part.startswith('__PLACEHOLDER_') and part.endswith('__')`
that decides whether a split part is left unescaped. -/
def keepPart (p : List Char) : Bool :=
  hasPfx "__PLACEHOLDER_".data p && hasSfx "__".data p

/-- The escaping pass: split on placeholder tokens, escape every part that
does not look like a placeholder, and rejoin. -/
def escapeStep (s : List Char) : List Char :=
  ((splitPH (s.length + 1) [] s).map (fun p => if keepPart p then p else escL p)).flatten

/-- Python `str.replace(key, val)` (all occurrences, left to right). -/
def replaceAll : Nat → List Char → List Char → List Char → List Char
  | 0, _, _, s => s
  | _ + 1, _, _, [] => []
  | fuel + 1, key, val, c :: rest =>
    if hasPfx key (c :: rest) then val ++ replaceAll fuel key val ((c :: rest).drop key.length)
    else c :: replaceAll fuel key val rest

/-- The final restoration loop over the placeholder dict, in insertion
order. -/
def restorePh (phs : List (List Char × List Char)) (s : List Char) : List Char :=
  phs.foldl (fun t kv => replaceAll (t.length + 1) kv.1 kv.2 t) s

/-- `_process_inline_markdown` on `List Char`. -/
def processInlineL (s : List Char) : List Char :=
  let p1 := linkScan (s.length + 1) s ⟨0, []⟩
  let p2 := boldScan (p1.1.length + 1) p1.1 p1.2
  let p3 := italScan (p2.1.length + 1) none p2.1 p2.2
  restorePh p3.2.phs (escapeStep p3.1)

/-- `_process_inline_markdown`. -/
def process_inline_markdown (s : String) : String := ⟨processInlineL s.data⟩

/-- `html.escape` at `String` level. -/
def htmlEscape (s : String) : String := ⟨escL s.data⟩

/-- Python `str.split('\n')`. -/
def splitOnNl : List Char → List (List Char)
  | [] => [[]]
  | c :: rest =>
    if c = '\n' then [] :: splitOnNl rest
    else
      match splitOnNl rest with
      | l :: ls => (c :: l) :: ls
      | [] => [[c]]

/-- Numeric value of a digit run (`int(match.group(1))`). -/
def digitsToNat (ds : List Char) : Nat := ds.foldl (fun n c => n * 10 + (c.toNat - 48)) 0

/-- `\d+\.\s` at the head of the string: digits, a dot, then at least one
whitespace character. -/
def numDotSpace (s : List Char) : Bool :=
  let ds := s.takeWhile Char.isDigit
  !ds.isEmpty &&
    (match s.dropWhile Char.isDigit with
     | c :: d :: _ => c == '.' && isWs d
     | _ => false)

/-- The numbered-item start test: `re.match(r'^(\*\*)?\d+\.\s+', line)`
(the source's second and third variants are subsumed by the first). -/
def isItemStartL (s : List Char) : Bool :=
  numDotSpace s ||
    (match s with
     | a :: b :: r => a == '*' && b == '*' && numDotSpace r
     | _ => false)

/-- `\d+\.` at the head of the string. -/
def numDotAt (s : List Char) : Bool :=
  let ds := s.takeWhile Char.isDigit
  !ds.isEmpty &&
    (match s.dropWhile Char.isDigit with
     | c :: _ => c == '.'
     | _ => false)

/-- `re.match(r'^(\*\*)?\d+\.', line)` (the continuation-line exclusion,
which does not require trailing whitespace). -/
def numDotOptStars (s : List Char) : Bool :=
  numDotAt s ||
    (match s with
     | a :: b :: r => a == '*' && b == '*' && numDotAt r
     | _ => false)

/-- Title pattern 1, `^\*\*(\d+)\.\s+(.+?)\*\*$`.  The lazy group is pinned
between the maximal whitespace run and the final `**`; when that leaves the
group empty, `\s+` gives back exactly one character (its last). -/
def title1 (s : List Char) : Option (Nat × List Char) :=
  match s with
  | '*' :: '*' :: r =>
    let ds := r.takeWhile Char.isDigit
    if ds = [] then none
    else
      match r.dropWhile Char.isDigit with
      | '.' :: r2 =>
        let ws := r2.takeWhile isWs
        let rest := r2.dropWhile isWs
        if ws = [] then none
        else if 3 ≤ rest.length ∧ hasSfx "**".data rest then
          some (digitsToNat ds, rest.take (rest.length - 2))
        else if rest = ['*', '*'] ∧ 2 ≤ ws.length then
          some (digitsToNat ds, ws.drop (ws.length - 1))
        else none
      | _ => none
  | _ => none

/-- Title pattern 2, `^(\d+)\.\s+\*\*(.+?)\*\*$`.  Here `\s+` cannot give
back (the following literal is `*`, not whitespace). -/
def title2 (s : List Char) : Option (Nat × List Char) :=
  let ds := s.takeWhile Char.isDigit
  if ds = [] then none
  else
    match s.dropWhile Char.isDigit with
    | '.' :: r2 =>
      let ws := r2.takeWhile isWs
      let rest := r2.dropWhile isWs
      if ws = [] then none
      else
        match rest with
        | '*' :: '*' :: mid =>
          if 3 ≤ mid.length ∧ hasSfx "**".data mid then some (digitsToNat ds, mid.take (mid.length - 2))
          else none
        | _ => none
    | _ => none

/-- Title pattern 3, `^(\d+)\.\s+(.+)$`. -/
def title3 (s : List Char) : Option (Nat × List Char) :=
  let ds := s.takeWhile Char.isDigit
  if ds = [] then none
  else
    match s.dropWhile Char.isDigit with
    | '.' :: r2 =>
      let ws := r2.takeWhile isWs
      let rest := r2.dropWhile isWs
      if ws = [] then none
      else if rest ≠ [] then some (digitsToNat ds, rest)
      else if 2 ≤ ws.length then some (digitsToNat ds, ws.drop (ws.length - 1))
      else none
    | _ => none

/-- The three title patterns tried in source precedence. -/
def titleOf (s : List Char) : Option (Nat × List Char) :=
  match title1 s with
  | some r => some r
  | none =>
    match title2 s with
    | some r => some r
    | none => title3 s

/-- `re.sub(r'mm([^m]+)mm', r'\1', s)` for a doubled marker `m`. -/
def subPair (m : Char) : Nat → List Char → List Char
  | 0, s => s
  | _ + 1, [] => []
  | fuel + 1, c :: rest =>
    match pairMatchAt m (c :: rest) with
    | some (content, r2) => content ++ subPair m fuel r2
    | none => c :: subPair m fuel rest

/-- `re.sub` of the single-marker italic pattern with replacement `\1`. -/
def subSingle (m : Char) : Nat → Option Char → List Char → List Char
  | 0, _, s => s
  | _ + 1, _, [] => []
  | fuel + 1, prev, c :: rest =>
    match singleMatchAt m prev (c :: rest) with
    | some (content, r2) => content ++ subSingle m fuel (some c) r2
    | none => c :: subSingle m fuel (some c) rest

/-- The two marker-stripping substitutions applied to an extracted title. -/
def stripTitleMarkers (t : List Char) : List Char :=
  let u := subPair '*' (t.length + 1) t
  subPair '_' (u.length + 1) u

/-- `^\d+\.\s+` consumed from the head of the string, if it matches. -/
def dropNumDotWs (s : List Char) : Option (List Char) :=
  let ds := s.takeWhile Char.isDigit
  if ds = [] then none
  else
    match s.dropWhile Char.isDigit with
    | '.' :: r2 =>
      let ws := r2.takeWhile isWs
      if ws = [] then none else some (r2.dropWhile isWs)
    | _ => none

/-- `re.sub(r'^(\*\*)?\d+\.\s+', '', line)` (anchored, so at most one
replacement; the optional group is tried greedily first). -/
def dropItemStart (s : List Char) : List Char :=
  match s with
  | '*' :: '*' :: r =>
    match dropNumDotWs r with
    | some rest => rest
    | none =>
      match dropNumDotWs s with
      | some rest => rest
      | none => s
  | _ =>
    match dropNumDotWs s with
    | some rest => rest
    | none => s

/-- `re.sub(r'\*\*', '', s)`. -/
def removeStarStar : Nat → List Char → List Char
  | 0, s => s
  | _ + 1, [] => []
  | fuel + 1, '*' :: '*' :: r2 => removeStarStar fuel r2
  | fuel + 1, c :: rest => c :: removeStarStar fuel rest

/-- `re.search(r'\*\*Source:\*\*\s*\[([^\]]+)\]\(([^)]+)\)', line)`. -/
def searchSource : Nat → List Char → Option (List Char × List Char)
  | 0, _ => none
  | _ + 1, [] => none
  | fuel + 1, c :: rest =>
    if hasPfx "**Source:**".data (c :: rest) then
      match linkMatchAt (((c :: rest).drop 11).dropWhile isWs) with
      | some (txt, url, _) => some (txt, url)
      | none => searchSource fuel rest
    else searchSource fuel rest

/-- `re.search(r'\*\*Summary:\*\*\s*(.+)', line)`, returning `group(1)`:
the remainder after the label with leading whitespace consumed by `\s*`,
except that an all-whitespace remainder makes `\s*` give back one character. -/
def searchSummary : Nat → List Char → Option (List Char)
  | 0, _ => none
  | _ + 1, [] => none
  | fuel + 1, c :: rest =>
    if hasPfx "**Summary:**".data (c :: rest) then
      match (c :: rest).drop 12 with
      | [] => searchSummary fuel rest
      | r =>
        let d := r.dropWhile isWs
        if d = [] then some (r.drop (r.length - 1)) else some d
    else searchSummary fuel rest

/-- The two list kinds tracked by `list_type`. -/
inductive LKind
  | ol
  | ul
  deriving Repr, DecidableEq

/-- One entry of the `item_lines` accumulator. -/
inductive ItemLine
  | title (t : List Char)
  | src (txt url : List Char)
  | summary (t : List Char)
  | par (t : List Char)
  deriving Repr, DecidableEq

/-- One entry of `html_parts`, kept structured; `renderPart` produces the
exact string the source appends. -/
inductive HPart
  | h1 (escTxt : List Char)
  | h2 (escTxt : List Char)
  | h3 (escTxt : List Char)
  | listOpen (k : LKind)
  | listClose (k : LKind)
  | li (inner : List Char)
  | item (ls : List ItemLine) (n : Nat)
  | emptyP
  | para (inner : List Char)
  deriving Repr, DecidableEq

/-- The loop's mutable state (`html_parts`, `in_list`, `list_type`,
`current_item_number`, `in_numbered_item`, `item_lines`). -/
structure EmailState where
  parts : List HPart
  inList : Bool
  listType : Option LKind
  curNum : Nat
  inItem : Bool
  itemLines : List ItemLine
  deriving Repr, DecidableEq

def initES : EmailState := ⟨[], false, none, 0, false, []⟩

/-- Shared shape of the three header branches: the header part is appended
FIRST, then an open list is closed, then an open numbered item is flushed
(this emission order is exactly the source's). -/
def headerEmit (st : EmailState) (hp : HPart) : EmailState :=
  let ps1 := st.parts ++ [hp]
  let ps2 := if st.inList then ps1 ++ [HPart.listClose (st.listType.getD LKind.ul)] else ps1
  let ps3 := if st.inItem then ps2 ++ [HPart.item st.itemLines st.curNum] else ps2
  { st with
      parts := ps3, inList := false, inItem := false,
      itemLines := if st.inItem then [] else st.itemLines }

/-- The numbered-item-start branch: flush a previously open item (leaving
`in_numbered_item` untouched, as the source does), then either open a new
accumulator from the extracted title or fall back to a plain ordered list. -/
def itemStartStep (st : EmailState) (line : List Char) : EmailState :=
  let ps0 := if st.inItem then st.parts ++ [HPart.item st.itemLines st.curNum] else st.parts
  let il0 : List ItemLine := if st.inItem then [] else st.itemLines
  match titleOf line with
  | some nt =>
    { st with
        parts := ps0, curNum := nt.1, inItem := true,
        itemLines := [ItemLine.title (stripTitleMarkers (stripWs nt.2))] }
  | none =>
    let needOpen := !(st.inList && decide (st.listType = some LKind.ol))
    let ps1 :=
      if needOpen then
        (if st.inList then ps0 ++ [HPart.listClose (st.listType.getD LKind.ul)] else ps0)
          ++ [HPart.listOpen LKind.ol]
      else ps0
    let txt := removeStarStar (line.length + 1) (dropItemStart line)
    { st with
        parts := ps1 ++ [HPart.li (processInlineL txt)],
        inList := if needOpen then true else st.inList,
        listType := if needOpen then some LKind.ol else st.listType,
        itemLines := il0 }

/-- The unordered-list branch. -/
def bulletStep (st : EmailState) (line : List Char) : EmailState :=
  let needOpen := !(st.inList && decide (st.listType = some LKind.ul))
  let ps1 :=
    if needOpen then
      (if st.inList then st.parts ++ [HPart.listClose (st.listType.getD LKind.ul)] else st.parts)
        ++ [HPart.listOpen LKind.ul]
    else st.parts
  let txt := stripWs ((stripWs line).drop 2)
  { st with
      parts := ps1 ++ [HPart.li (processInlineL txt)],
      inList := if needOpen then true else st.inList,
      listType := if needOpen then some LKind.ul else st.listType }

/-- The blank-line branch; `peeked` is the lookahead line (the source reads
`lines[i + 1]` and strips it). -/
def blankStep (peeked : Option (List Char)) (st : EmailState) : EmailState :=
  let ps1 := if st.inList then st.parts ++ [HPart.listClose (st.listType.getD LKind.ul)] else st.parts
  let close :=
    st.inItem && !st.itemLines.isEmpty && decide (1 < st.itemLines.length) &&
      (match peeked with
       | some nraw =>
         let nl := stripWs nraw
         isItemStartL nl || nl.head? == some '#'
       | none => false)
  let ps2 := if close then ps1 ++ [HPart.item st.itemLines st.curNum] else ps1
  let inItem2 := if close then false else st.inItem
  let il2 := if close then [] else st.itemLines
  let ps3 := if !inItem2 then ps2 ++ [HPart.emptyP] else ps2
  { st with parts := ps3, inList := false, inItem := inItem2, itemLines := il2 }

/-- One iteration of the `while` loop of `markdown_to_html_email`: `raw` is
`lines[i]` and `rest` is the list of lines after it.  The source's lookahead
is `rest.head?` (`headLine`); the lookahead is a parameter so that the
specification's variant (next non-blank line) can be stated beside it. -/
def emailStepWith (peek : List (List Char) → Option (List Char)) (st : EmailState)
    (raw : List Char) (rest : List (List Char)) : EmailState :=
  let line := dropTrailWs raw
  let strip := stripWs line
  if hasPfx "### ".data line then
    headerEmit st (HPart.h3 (escL (stripWs (line.drop 4))))
  else if hasPfx "## ".data line then
    headerEmit st (HPart.h2 (escL (stripWs (line.drop 3))))
  else if hasPfx "# ".data line then
    headerEmit st (HPart.h1 (escL (stripWs (line.drop 2))))
  else if isItemStartL line then
    itemStartStep st line
  else if st.inItem && (strip.head? == some '*' || strip.head? == some '-')
      && containsSub "**Source:**".data line then
    match searchSource (line.length + 1) line with
    | some tu => { st with itemLines := st.itemLines ++ [ItemLine.src tu.1 tu.2] }
    | none => st
  else if st.inItem && (strip.head? == some '*' || strip.head? == some '-')
      && containsSub "**Summary:**".data line then
    match searchSummary (line.length + 1) line with
    | some t => { st with itemLines := st.itemLines ++ [ItemLine.summary (stripWs t)] }
    | none => st
  else if st.inItem && !strip.isEmpty && !(strip.head? == some '*')
      && !(strip.head? == some '-') && !numDotOptStars line
      && !(strip.head? == some '#') then
    match st.itemLines.getLast? with
    | some (ItemLine.summary prev) =>
      { st with itemLines := st.itemLines.dropLast ++ [ItemLine.summary (prev ++ ' ' :: strip)] }
    | _ => { st with itemLines := st.itemLines ++ [ItemLine.par line] }
  else if !st.inItem && (hasPfx "- ".data strip || hasPfx "* ".data strip) then
    bulletStep st line
  else if strip.isEmpty then
    blankStep (peek rest) st
  else if st.inItem then
    { st with itemLines := st.itemLines ++ [ItemLine.par line] }
  else
    let ps1 := if st.inList then st.parts ++ [HPart.listClose (st.listType.getD LKind.ul)] else st.parts
    { st with parts := ps1 ++ [HPart.para (processInlineL line)], inList := false }

/-- The whole line loop. -/
def emailLoopWith (peek : List (List Char) → Option (List Char)) :
    EmailState → List (List Char) → EmailState
  | st, [] => st
  | st, l :: rest => emailLoopWith peek (emailStepWith peek st l rest) rest

/-- The end-of-input flush (`# Close any open structures`). -/
def emailFlush (st : EmailState) : List HPart :=
  let ps := if st.inList then st.parts ++ [HPart.listClose (st.listType.getD LKind.ul)] else st.parts
  if st.inItem then ps ++ [HPart.item st.itemLines st.curNum] else ps

/-- The code's lookahead: the immediately following line. -/
def headLine (ls : List (List Char)) : Option (List Char) := ls.head?

/-- The lookahead as the specification describes it: the next NON-BLANK
line (claim C5's refinement comparison). -/
def nextNonBlank (ls : List (List Char)) : Option (List Char) :=
  ls.find? (fun l => !(stripWs l).isEmpty)

/-- The structured part sequence produced for a document, under a chosen
lookahead. -/
def emailPartsWith (peek : List (List Char) → Option (List Char)) (s : String) : List HPart :=
  emailFlush (emailLoopWith peek initES (splitOnNl s.data))

/-- The structured part sequence of `markdown_to_html_email`. -/
def emailParts (s : String) : List HPart := emailPartsWith headLine s

/-- The field-collection fold at the top of `_format_numbered_item`:
last title wins, last source wins, summaries and paragraphs in order. -/
def itemFields (ls : List ItemLine) :
    List Char × Option (List Char × List Char) × List (List Char) :=
  ls.foldl
    (fun acc l =>
      match l with
      | ItemLine.title t => (t, acc.2.1, acc.2.2)
      | ItemLine.src t u => (acc.1, some (t, u), acc.2.2)
      | ItemLine.summary t => (acc.1, acc.2.1, acc.2.2 ++ [t])
      | ItemLine.par t => (acc.1, acc.2.1, acc.2.2 ++ [t]))
    ([], none, [])

/-- The source-link block of `_format_numbered_item`. -/
def srcFrag (txt url : List Char) : List Char :=
  "<div style=\"margin-bottom:14px;\"><span style=\"font-size:13px;color:#6b7280;text-transform:uppercase;letter-spacing:0.05em;font-weight:600;margin-right:8px;\">Source:</span><a href=\"".data
    ++ escL url
    ++ "\" style=\"display:inline-block;padding:6px 14px;background:#f5f7fb;border:1px solid #e5e7eb;border-radius:6px;color:#1d4ed8;text-decoration:none;font-size:14px;font-weight:600;line-height:1.4;\">🔗 ".data
    ++ escL txt ++ "</a></div>".data

/-- One summary paragraph of `_format_numbered_item`. -/
def sumParagraph (inner : List Char) : List Char :=
  "<p style=\"margin:0 0 14px 0;font-size:15px;line-height:1.75;color:#6b7280;\">".data
    ++ inner ++ "</p>".data

/-- `'\n'.join`. -/
def joinNl : List (List Char) → List Char
  | [] => []
  | [x] => x
  | x :: y :: rest => x ++ '\n' :: joinNl (y :: rest)

/-- `_format_numbered_item` (its `number` argument is accepted and unused,
exactly as in the source). -/
def formatNumberedItem (ls : List ItemLine) (_num : Nat) : List Char :=
  if ls = [] then []
  else
    let f := itemFields ls
    let chunks : List (List Char) :=
      ["<div style=\"margin:24px 0;\">".data]
        ++ (if f.1 ≠ [] then
              ["<div style=\"font-size:18px;font-weight:700;color:#1f2937;margin-bottom:10px;line-height:1.5;letter-spacing:-0.01em;\">".data
                ++ escL f.1 ++ "</div>".data]
            else [])
        ++ (match f.2.1 with
            | some tu => [srcFrag tu.1 tu.2]
            | none => [])
        ++ (let shtml := (f.2.2.map processInlineL).filterMap
              (fun p => if (stripWs p).isEmpty then none else some (sumParagraph p))
            if shtml ≠ [] then
              ["<div style=\"margin-top:8px;\">".data ++ shtml.flatten ++ "</div>".data]
            else [])
        ++ ["</div>".data]
    joinNl chunks

/-- The exact string the source appends to `html_parts` for each part. -/
def renderPart : HPart → List Char
  | HPart.h1 t => "<h1 style=\"margin:32px 0 20px 0;font-size:24px;font-weight:700;color:#1f2937;line-height:1.4;letter-spacing:-0.01em;\">".data ++ t ++ "</h1>".data
  | HPart.h2 t => "<h2 style=\"margin:40px 0 22px 0;font-size:22px;font-weight:700;color:#1f2937;line-height:1.4;letter-spacing:-0.01em;\">".data ++ t ++ "</h2>".data
  | HPart.h3 t => "<h3 style=\"margin:36px 0 18px 0;font-size:20px;font-weight:700;color:#1f2937;line-height:1.4;letter-spacing:-0.01em;\">".data ++ t ++ "</h3>".data
  | HPart.listOpen LKind.ol => "<ol style=\"margin:14px 0;padding-left:24px;color:#6b7280;\">".data
  | HPart.listOpen LKind.ul => "<ul style=\"margin:14px 0;padding-left:24px;color:#6b7280;\">".data
  | HPart.listClose LKind.ol => "</ol>".data
  | HPart.listClose LKind.ul => "</ul>".data
  | HPart.li inner => "<li style=\"margin:10px 0;font-size:15px;line-height:1.7;color:#6b7280;\">".data ++ inner ++ "</li>".data
  | HPart.item ls n => formatNumberedItem ls n
  | HPart.emptyP => "<p style=\"margin:12px 0;\"></p>".data
  | HPart.para inner => "<p style=\"margin:14px 0;font-size:15px;line-height:1.75;color:#6b7280;\">".data ++ inner ++ "</p>".data

/-- `markdown_to_html_email`. -/
def markdown_to_html_email (s : String) : String :=
  if s.data = [] then "" else ⟨joinNl ((emailParts s).map renderPart)⟩

/-- `re.sub(r'\[([^\]]+)\]\([^)]+\)', r'\1', s)` (plain-text list lines:
link reduced to its text, the URL dropped). -/
def subLinkKeep : Nat → List Char → List Char
  | 0, s => s
  | _ + 1, [] => []
  | fuel + 1, c :: rest =>
    match linkMatchAt (c :: rest) with
    | some (txt, _, r2) => txt ++ subLinkKeep fuel r2
    | none => c :: subLinkKeep fuel rest

/-- `re.sub(r'\[([^\]]+)\]\(([^)]+)\)', r'\1 (\2)', s)` (plain-text
paragraphs: link text followed by the URL in parentheses). -/
def subLinkParen : Nat → List Char → List Char
  | 0, s => s
  | _ + 1, [] => []
  | fuel + 1, c :: rest =>
    match linkMatchAt (c :: rest) with
    | some (txt, url, r2) => txt ++ ' ' :: '(' :: (url ++ ')' :: subLinkParen fuel r2)
    | none => c :: subLinkParen fuel rest

/-- The four marker-stripping substitutions shared by both plain-text
branches (`**`, `__`, then single `*`, single `_`, in source order). -/
def stripInlineMarkers (s : List Char) : List Char :=
  let s1 := subPair '*' (s.length + 1) s
  let s2 := subPair '_' (s1.length + 1) s1
  let s3 := subSingle '*' (s2.length + 1) none s2
  subSingle '_' (s3.length + 1) none s3

/-- One line of `format_markdown_text`. -/
def fmtLine (raw : List Char) : List Char :=
  let strip := stripWs raw
  if hasPfx "### ".data strip then
    let t := stripWs (strip.drop 4)
    '\n' :: (t ++ '\n' :: List.replicate t.length '-')
  else if hasPfx "## ".data strip then
    let t := stripWs (strip.drop 3)
    '\n' :: (t ++ '\n' :: List.replicate t.length '=')
  else if hasPfx "# ".data strip then
    let t := stripWs (strip.drop 2)
    '\n' :: (t ++ '\n' :: List.replicate t.length '=')
  else if numDotSpace strip || hasPfx "- ".data strip || hasPfx "* ".data strip then
    stripInlineMarkers (subLinkKeep (strip.length + 1) strip)
  else if strip.isEmpty then []
  else
    stripInlineMarkers (subLinkParen (strip.length + 1) strip)

/-- `format_markdown_text`. -/
def format_markdown_text (s : String) : String :=
  if s.data = [] then ""
  else ⟨stripWs (joinNl ((splitOnNl s.data).map fmtLine))⟩

/-- `re.sub(r'^#+\s*', '', content, flags=re.MULTILINE)`.  `\s` also matches
newlines, so the marker's whitespace run can swallow following blank lines;
`atStart` records whether the scan position follows a newline (or is the
start of the string). -/
def stripHeadersScan : Nat → Bool → List Char → List Char
  | 0, _, s => s
  | _ + 1, _, [] => []
  | fuel + 1, atStart, c :: rest =>
    if atStart && c == '#' then
      let r1 := (c :: rest).dropWhile (· == '#')
      let ws := r1.takeWhile isWs
      let r2 := r1.dropWhile isWs
      stripHeadersScan fuel (!ws.isEmpty && ws.getLast? == some '\n') r2
    else c :: stripHeadersScan fuel (c == '\n') rest

/-- `re.sub(r'<[^>]+>', '', content)`. -/
def stripTagsScan : Nat → List Char → List Char
  | 0, s => s
  | _ + 1, [] => []
  | fuel + 1, c :: rest =>
    if c == '<' then
      match splitAtChar '>' rest with
      | some (content, r2) =>
        if content = [] then c :: stripTagsScan fuel rest else stripTagsScan fuel r2
      | none => c :: stripTagsScan fuel rest
    else c :: stripTagsScan fuel rest

/-- The largest k ≥ 1 with `run[k] = '\n'`: the backtracking point of the
greedy `\s+` in `re.sub(r'\s+\n', '\n', ...)`. -/
def lastNlAfterFirst (run : List Char) : Option Nat :=
  ((List.range run.length).filter (fun k => decide (1 ≤ k) && run.get? k == some '\n')).getLast?

/-- `re.sub(r'\s+\n', '\n', content)`. -/
def collapseWsNl : Nat → List Char → List Char
  | 0, s => s
  | _ + 1, [] => []
  | fuel + 1, c :: rest =>
    let run := (c :: rest).takeWhile isWs
    match lastNlAfterFirst run with
    | some k => '\n' :: collapseWsNl fuel ((c :: rest).drop (k + 1))
    | none => c :: collapseWsNl fuel rest

/-- `sanitize_plain_text`. -/
def sanitize_plain_text (s : String) : String :=
  if s.data = [] then ""
  else
    let s1 := stripHeadersScan (s.data.length + 1) true s.data
    let s2 := stripTagsScan (s1.length + 1) s1
    let s3 := collapseWsNl (s2.length + 1) s2
    ⟨stripWs s3⟩

/-- Python `str.split()` (whitespace-separated words, empties dropped). -/
def pyWords : Nat → List Char → List (List Char)
  | 0, _ => []
  | _ + 1, [] => []
  | fuel + 1, c :: rest =>
    if isWs c then pyWords fuel rest
    else
      (c :: rest).takeWhile (fun x => !isWs x)
        :: pyWords fuel ((c :: rest).dropWhile (fun x => !isWs x))

/-- `' '.join`. -/
def joinSp : List (List Char) → List Char
  | [] => []
  | [x] => x
  | x :: y :: rest => x ++ ' ' :: joinSp (y :: rest)

/-- Greedy word filling of the single allowed output line. -/
def fitWords (w : Nat) : List (List Char) → List Char → List Char
  | [], acc => acc
  | word :: ws, acc =>
    let cand := if acc = [] then word else acc ++ ' ' :: word
    if cand.length + 1 ≤ w then fitWords w ws cand else acc

/-- Modelled from the spec: `summarize` "truncates at a word boundary,
appending an ellipsis if truncated" — the behaviour of the standard-library
call `textwrap.shorten(text, width, placeholder="…")`, whose code is not
part of this repository.  Faithful on the point the claims depend on: the
library raises `ValueError` ("invalid width %r (must be > 0)") whenever it
is invoked with `width ≤ 0`, and never raises for any positive width. -/
def textwrapShorten (t : List Char) (width : Int) : Except String (List Char) :=
  if width ≤ 0 then Except.error "invalid width (must be > 0)"
  else
    let collapsed := joinSp (pyWords (t.length + 1) t)
    if (collapsed.length : Int) ≤ width then Except.ok collapsed
    else
      let body := fitWords width.toNat (pyWords (t.length + 1) t) []
      Except.ok (if body = [] then ['…'] else body ++ ['…'])

/-- `summarize_content`.  `max_chars` is a Python int; the call can reach
`textwrap.shorten`, which raises for non-positive widths, hence `Except`. -/
def summarize_content (content : String) (maxChars : Int) : Except String String :=
  let plain := sanitize_plain_text content
  if (plain.data.length : Int) ≤ maxChars then Except.ok plain
  else (textwrapShorten plain.data maxChars).map (fun l => (⟨l⟩ : String))

/-! ### Identity lemmas: each substitution leaves a string without its
trigger character untouched. -/

theorem linkMatchAt_ne (c : Char) (l : List Char) (h : c ≠ '[') :
    linkMatchAt (c :: l) = none := by
  simp [linkMatchAt, h]

theorem linkScan_id (fuel : Nat) (s : List Char) (st : PhState)
    (h : ∀ c ∈ s, c ≠ '[') : linkScan fuel s st = (s, st) := by
  induction fuel generalizing s st with
  | zero => rfl
  | succ n ih =>
    cases s with
    | nil => rfl
    | cons c rest =>
      have hc : c ≠ '[' := h c (List.mem_cons_self c rest)
      have hr : ∀ x ∈ rest, x ≠ '[' := fun x hx => h x (List.mem_cons_of_mem c hx)
      simp [linkScan, linkMatchAt_ne c rest hc, ih rest st hr]

theorem pairMatchAt_ne (m a : Char) (l : List Char) (h : a ≠ m) :
    pairMatchAt m (a :: l) = none := by
  cases l with
  | nil => rfl
  | cons b r => simp [pairMatchAt, h]

theorem boldMatchAt_ne (c : Char) (l : List Char) (h1 : c ≠ '*') (h2 : c ≠ '_') :
    boldMatchAt (c :: l) = none := by
  simp [boldMatchAt, pairMatchAt_ne _ _ _ h1, pairMatchAt_ne _ _ _ h2]

theorem boldScan_id (fuel : Nat) (s : List Char) (st : PhState)
    (h : ∀ c ∈ s, c ≠ '*' ∧ c ≠ '_') : boldScan fuel s st = (s, st) := by
  induction fuel generalizing s st with
  | zero => rfl
  | succ n ih =>
    cases s with
    | nil => rfl
    | cons c rest =>
      have hc := h c (List.mem_cons_self c rest)
      have hr : ∀ x ∈ rest, x ≠ '*' ∧ x ≠ '_' := fun x hx => h x (List.mem_cons_of_mem c hx)
      simp [boldScan, boldMatchAt_ne c rest hc.1 hc.2, ih rest st hr]

theorem singleMatchAt_ne (m : Char) (prev : Option Char) (c : Char) (l : List Char)
    (h : c ≠ m) : singleMatchAt m prev (c :: l) = none := by
  simp [singleMatchAt, h]

theorem italMatchAt_ne (prev : Option Char) (c : Char) (l : List Char)
    (h1 : c ≠ '*') (h2 : c ≠ '_') : italMatchAt prev (c :: l) = none := by
  simp [italMatchAt, singleMatchAt_ne _ _ _ _ h1, singleMatchAt_ne _ _ _ _ h2]

theorem italScan_id (fuel : Nat) (prev : Option Char) (s : List Char) (st : PhState)
    (h : ∀ c ∈ s, c ≠ '*' ∧ c ≠ '_') : italScan fuel prev s st = (s, st) := by
  induction fuel generalizing prev s st with
  | zero => rfl
  | succ n ih =>
    cases s with
    | nil => rfl
    | cons c rest =>
      have hc := h c (List.mem_cons_self c rest)
      have hr : ∀ x ∈ rest, x ≠ '*' ∧ x ≠ '_' := fun x hx => h x (List.mem_cons_of_mem c hx)
      simp [italScan, italMatchAt_ne prev c rest hc.1 hc.2, ih (some c) rest st hr]

theorem phTokenAt_ne (c : Char) (l : List Char) (h : c ≠ '_') :
    phTokenAt (c :: l) = none := by
  have e : "__PLACEHOLDER_".data = '_' :: "_PLACEHOLDER_".data := rfl
  simp [phTokenAt, e, hasPfx, Ne.symm h]

theorem splitPH_gap (fuel : Nat) (acc s : List Char) (h : ∀ c ∈ s, c ≠ '_') :
    splitPH fuel acc s = [acc.reverse ++ s] := by
  induction fuel generalizing acc s with
  | zero => rfl
  | succ n ih =>
    cases s with
    | nil => simp [splitPH]
    | cons c rest =>
      have hc := h c (List.mem_cons_self c rest)
      have hr : ∀ x ∈ rest, x ≠ '_' := fun x hx => h x (List.mem_cons_of_mem c hx)
      simp [splitPH, phTokenAt_ne c rest hc, ih (c :: acc) rest hr]

theorem keepPart_false (p : List Char) (h : ∀ c ∈ p, c ≠ '_') : keepPart p = false := by
  cases p with
  | nil => rfl
  | cons c l =>
    have hc := h c (List.mem_cons_self c l)
    have e : "__PLACEHOLDER_".data = '_' :: "_PLACEHOLDER_".data := rfl
    simp [keepPart, e, hasPfx, Ne.symm hc]

theorem escapeStep_esc (s : List Char) (h : ∀ c ∈ s, c ≠ '_') :
    escapeStep s = escL s := by
  simp [escapeStep, splitPH_gap _ [] s h, keepPart_false s h]

theorem restorePh_nil (s : List Char) : restorePh [] s = s := rfl

theorem processInlineL_esc (s : List Char)
    (h : ∀ c ∈ s, c ≠ '[' ∧ c ≠ '*' ∧ c ≠ '_') : processInlineL s = escL s := by
  have h1 : ∀ c ∈ s, c ≠ '[' := fun c hc => (h c hc).1
  have h2 : ∀ c ∈ s, c ≠ '*' ∧ c ≠ '_' := fun c hc => ⟨(h c hc).2.1, (h c hc).2.2⟩
  have h3 : ∀ c ∈ s, c ≠ '_' := fun c hc => (h c hc).2.2
  simp [processInlineL, linkScan_id _ s _ h1, boldScan_id _ s _ h2,
    italScan_id _ none s _ h2, escapeStep_esc s h3, restorePh_nil]

/-- C10: for every input string containing none of the characters `[`, `*`,
`_`, the inline HTML rendering is exactly HTML escaping:
`_process_inline_markdown(text) == html.escape(text)` (no link, bold or
italic replacement occurs and the placeholder machinery does not alter the
text). -/
theorem c10_inline_plain_is_escape (s : String)
    (h : ∀ c ∈ s.data, c ≠ '[' ∧ c ≠ '*' ∧ c ≠ '_') :
    process_inline_markdown s = htmlEscape s := by
  unfold process_inline_markdown htmlEscape
  rw [processInlineL_esc s.data h]

/-- Witness for C10 at the concrete input `a<b& "c>d`. -/
theorem c10_inline_plain_is_escape_witness :
    (∀ c ∈ ("a<b& \"c>d".data), c ≠ '[' ∧ c ≠ '*' ∧ c ≠ '_') ∧
      process_inline_markdown "a<b& \"c>d" = htmlEscape "a<b& \"c>d" :=
  ⟨by decide, c10_inline_plain_is_escape _ (by decide)⟩

set_option maxRecDepth 40000

/-! ### Concrete evaluations of the inline renderer. -/

/-- C1 (refuting evaluation): on `[x](u)&[y](v)` the bold pass matches
`__&__` across the two link placeholders' boundary underscores, the `&`
ends up inside a `<strong>` fragment whose placeholder is created after the
restoration loop has already passed it, and the whole fragment is dropped:
the literal `&` of the source text appears in the output neither raw nor
HTML-entity-encoded (count of `&` is 0), and a stray `PLACEHOLDER_2` leaks
into the output. -/
theorem c1_ampersand_vanishes :
    process_inline_markdown "[x](u)&[y](v)" =
      "<a href=\"u\" style=\"color:#1d4ed8;text-decoration:none;font-weight:600;\">x</a>PLACEHOLDER_2<a href=\"v\" style=\"color:#1d4ed8;text-decoration:none;font-weight:600;\">y</a>" ∧
      (process_inline_markdown "[x](u)&[y](v)").data.count '&' = 0 :=
  ⟨rfl, rfl⟩

/-- C2 (refuting evaluation): on `**[t](u)**` the link placeholder is
nested inside the bold fragment; the restoration loop substitutes
placeholders in insertion order, so `__PLACEHOLDER_0__` (reintroduced by the
later `__PLACEHOLDER_1__` substitution) survives in the output and the
generated anchor never appears. -/
theorem c2_placeholder_survives :
    process_inline_markdown "**[t](u)**" =
      "<strong style=\"font-weight:600;\">__PLACEHOLDER_0__</strong>" ∧
      containsSub "<a".data (process_inline_markdown "**[t](u)**").data = false ∧
      containsSub "__PLACEHOLDER_0__".data (process_inline_markdown "**[t](u)**").data = true :=
  ⟨rfl, rfl, rfl⟩

/-- C9 counterexample: the inline rendering of `**bold** and *italic*` is
not the bare-tag string the claim asserts (the generated tags carry fixed
inline style attributes). -/
theorem c9_cex_bare_tags :
    process_inline_markdown "**bold** and *italic*" ≠
      "<strong>bold</strong> and <em>italic</em>" := by
  decide

/-- C9 amended: the inline rendering of `**bold** and *italic*` is exactly
`<strong style="font-weight:600;">bold</strong> and
<em style="font-style:italic;">italic</em>` — the spans are matched without
cross-contamination and produce exactly these styled tags. -/
theorem c9_bold_italic_exact :
    process_inline_markdown "**bold** and *italic*" =
      "<strong style=\"font-weight:600;\">bold</strong> and <em style=\"font-style:italic;\">italic</em>" :=
  rfl

/-! ### The numbered-item extraction example (claim C3). -/

/-- The document of the spec's "Numbered item extraction" property. -/
def c3doc : String :=
  "1.  **Great News**\n* **Source:** [TechCrunch](https://tc.example/a)\n* **Summary:** Something happened today.\nIt continues here.\n\n2. Another item"

/-- The structured fields of a `NumberedItem` part. -/
def partItemFields (p : HPart) :
    Option (List Char × Option (List Char × List Char) × List (List Char)) :=
  match p with
  | HPart.item ls _ => some (itemFields ls)
  | _ => none

/-- C3: parsing the six-line document yields exactly two `NumberedItem`
blocks: the first titled `Great News` with source
`("TechCrunch", "https://tc.example/a")` and the single summary entry
`Something happened today. It continues here.` (the continuation line joined
by one space); the second titled `Another item` with no source and an empty
summary. -/
theorem c3_numbered_item_extraction :
    (emailParts c3doc).filterMap partItemFields =
      [("Great News".data, some ("TechCrunch".data, "https://tc.example/a".data),
          ["Something happened today. It continues here.".data]),
        ("Another item".data, none, [])] := by
  decide

/-! ### Claim C4: header lines versus open lists. -/

/-- Helper scan: `true` iff no header part occurs while a list element is
open (between a `listOpen` and its `listClose`). -/
def noHdrAux : Bool → List HPart → Bool
  | _, [] => true
  | openL, p :: ps =>
    match p with
    | HPart.listOpen _ => noHdrAux true ps
    | HPart.listClose _ => noHdrAux false ps
    | HPart.h1 _ => !openL && noHdrAux openL ps
    | HPart.h2 _ => !openL && noHdrAux openL ps
    | HPart.h3 _ => !openL && noHdrAux openL ps
    | _ => noHdrAux openL ps

/-- No header part inside an open list element. -/
def noHeaderInsideOpenList (ps : List HPart) : Bool := noHdrAux false ps

/-- C4 counterexample: on `- a\n# H` the header is emitted BEFORE the open
`<ul>` is closed, so the `<h1>` markup lands inside the `<ul>` element —
the claimed emission order (close, then header) is violated. -/
theorem c4_cex_header_inside_list :
    noHeaderInsideOpenList (emailParts "- a\n# H") = false ∧
    emailParts "- a\n# H" =
      [HPart.listOpen LKind.ul, HPart.li "a".data, HPart.h1 "H".data,
        HPart.listClose LKind.ul] ∧
    markdown_to_html_email "- a\n# H" =
      "<ul style=\"margin:14px 0;padding-left:24px;color:#6b7280;\">\n<li style=\"margin:10px 0;font-size:15px;line-height:1.7;color:#6b7280;\">a</li>\n<h1 style=\"margin:32px 0 20px 0;font-size:24px;font-weight:700;color:#1f2937;line-height:1.4;letter-spacing:-0.01em;\">H</h1>\n</ul>" := by
  exact ⟨rfl, by decide, rfl⟩

/-- Header parts. -/
def isHeaderPart : HPart → Bool
  | HPart.h1 _ => true
  | HPart.h2 _ => true
  | HPart.h3 _ => true
  | _ => false

theorem hasPfx_iff_ex (p l : List Char) : hasPfx p l = true ↔ ∃ t, l = p ++ t := by
  induction p generalizing l with
  | nil => simp [hasPfx]
  | cons a ps ih =>
    cases l with
    | nil => simp [hasPfx]
    | cons c cs =>
      simp only [hasPfx, Bool.and_eq_true, beq_iff_eq, ih, List.cons_append, List.cons.injEq]
      constructor
      · rintro ⟨h1, t, h2⟩
        exact ⟨t, h1.symm, h2⟩
      · rintro ⟨t, h1, h2⟩
        exact ⟨h1.symm, t, h2⟩

/-- C4 amended: when a header line is encountered, the `Header` block is
emitted FIRST and only then are any open bullet list and any open
numbered-item accumulator closed and emitted — by the end of that line's
processing every open structure is closed, but the header markup itself
lands before the closing tag (hence inside an open `<ul>`/`<ol>` when a
list was open). -/
theorem c4_amended_header_emitted_before_close
    (peek : List (List Char) → Option (List Char)) (st : EmailState)
    (raw : List Char) (rest : List (List Char))
    (h : hasPfx "# ".data (dropTrailWs raw) = true ∨
         hasPfx "## ".data (dropTrailWs raw) = true ∨
         hasPfx "### ".data (dropTrailWs raw) = true) :
    (emailStepWith peek st raw rest).inList = false ∧
    (emailStepWith peek st raw rest).inItem = false ∧
    ∃ hp, isHeaderPart hp = true ∧
      (emailStepWith peek st raw rest).parts =
        st.parts ++ hp ::
          ((if st.inList then [HPart.listClose (st.listType.getD LKind.ul)] else []) ++
            (if st.inItem then [HPart.item st.itemLines st.curNum] else [])) := by
  rcases h with h | h | h
  · obtain ⟨t, ht⟩ := (hasPfx_iff_ex _ _).1 h
    have e3 : hasPfx "### ".data ('#' :: ' ' :: t) = false := rfl
    have e2 : hasPfx "## ".data ('#' :: ' ' :: t) = false := rfl
    have e1 : hasPfx "# ".data ('#' :: ' ' :: t) = true := rfl
    have ht' : dropTrailWs raw = '#' :: ' ' :: t := ht
    refine ⟨?_, ?_, HPart.h1 (escL (stripWs t)), rfl, ?_⟩
    · simp [emailStepWith, ht', e1, e2, e3, headerEmit]
    · simp [emailStepWith, ht', e1, e2, e3, headerEmit]
    · simp only [emailStepWith, ht', e1, e2, e3, Bool.false_eq_true, if_false, if_true, headerEmit]
      cases hL : st.inList <;> cases hI : st.inItem <;> simp [List.append_assoc]
  · obtain ⟨t, ht⟩ := (hasPfx_iff_ex _ _).1 h
    have e3 : hasPfx "### ".data ('#' :: '#' :: ' ' :: t) = false := rfl
    have e2 : hasPfx "## ".data ('#' :: '#' :: ' ' :: t) = true := rfl
    have ht' : dropTrailWs raw = '#' :: '#' :: ' ' :: t := ht
    refine ⟨?_, ?_, HPart.h2 (escL (stripWs t)), rfl, ?_⟩
    · simp [emailStepWith, ht', e2, e3, headerEmit]
    · simp [emailStepWith, ht', e2, e3, headerEmit]
    · simp only [emailStepWith, ht', e2, e3, Bool.false_eq_true, if_false, if_true, headerEmit]
      cases hL : st.inList <;> cases hI : st.inItem <;> simp [List.append_assoc]
  · obtain ⟨t, ht⟩ := (hasPfx_iff_ex _ _).1 h
    have e3 : hasPfx "### ".data ('#' :: '#' :: '#' :: ' ' :: t) = true := rfl
    have ht' : dropTrailWs raw = '#' :: '#' :: '#' :: ' ' :: t := ht
    refine ⟨?_, ?_, HPart.h3 (escL (stripWs t)), rfl, ?_⟩
    · simp [emailStepWith, ht', e3, headerEmit]
    · simp [emailStepWith, ht', e3, headerEmit]
    · simp only [emailStepWith, ht', e3, Bool.false_eq_true, if_false, if_true, headerEmit]
      cases hL : st.inList <;> cases hI : st.inItem <;> simp [List.append_assoc]

/-- Witness for C4's amended theorem: a header line processed while a
bullet list is open. -/
theorem c4_amended_header_emitted_before_close_witness :
    (hasPfx "# ".data (dropTrailWs "# H".data) = true ∨
      hasPfx "## ".data (dropTrailWs "# H".data) = true ∨
      hasPfx "### ".data (dropTrailWs "# H".data) = true) ∧
    ((emailStepWith headLine ⟨[], true, some LKind.ul, 0, false, []⟩ "# H".data []).inList = false ∧
      (emailStepWith headLine ⟨[], true, some LKind.ul, 0, false, []⟩ "# H".data []).inItem = false ∧
      ∃ hp, isHeaderPart hp = true ∧
        (emailStepWith headLine ⟨[], true, some LKind.ul, 0, false, []⟩ "# H".data []).parts =
          ([] : List HPart) ++ hp ::
            ((if true then [HPart.listClose ((some LKind.ul).getD LKind.ul)] else []) ++
              (if false then [HPart.item ([] : List ItemLine) 0] else []))) :=
  ⟨Or.inl (by decide),
    c4_amended_header_emitted_before_close headLine ⟨[], true, some LKind.ul, 0, false, []⟩
      "# H".data [] (Or.inl (by decide))⟩

/-! ### Claim C5: the blank-line lookahead. -/

/-- The document distinguishing the code's lookahead (the immediately
following line) from the specified one (the next non-blank line): an open
item followed by TWO blank lines and a new numbered item. -/
def c5doc : String := "1. **T**\n* **Summary:** s\n\n\n2. **U**"

/-- C5 counterexample: running the loop with the code's lookahead
(`lines[i+1]`) differs from running it with the claimed lookahead (the next
non-blank line) on `c5doc` — with the code's lookahead the item stays open
through the first blank line and closes only at the second, yielding one
empty paragraph instead of two. -/
theorem c5_cex_lookahead :
    emailPartsWith headLine c5doc ≠ emailPartsWith nextNonBlank c5doc ∧
    emailPartsWith headLine c5doc =
      [HPart.item [ItemLine.title "T".data, ItemLine.summary "s".data] 1, HPart.emptyP,
        HPart.item [ItemLine.title "U".data] 2] ∧
    emailPartsWith nextNonBlank c5doc =
      [HPart.item [ItemLine.title "T".data, ItemLine.summary "s".data] 1, HPart.emptyP,
        HPart.emptyP, HPart.item [ItemLine.title "U".data] 2] := by
  refine ⟨by decide, by decide, by decide⟩

/-- C5 amended: on a blank line with an open numbered item whose
accumulator holds more than just the title, the IMMEDIATELY following line
(not the next non-blank line) is peeked after stripping: if it starts a new
numbered item or begins with `#`, the item is closed and emitted (followed
by an empty paragraph part, since the item is no longer open); otherwise —
in particular whenever the immediately following line is another blank —
the blank is absorbed and the item stays open.  Consequently, with two or
more consecutive blank lines the item closes only at the last blank. -/
theorem c5_amended_immediate_peek (st : EmailState) (raw : List Char)
    (rest : List (List Char)) (hBlank : dropTrailWs raw = [])
    (hItem : st.inItem = true) (hLen : 1 < st.itemLines.length)
    (hList : st.inList = false) :
    emailStepWith headLine st raw rest =
      (match rest.head? with
       | some nraw =>
         if isItemStartL (stripWs nraw) || (stripWs nraw).head? == some '#' then
           { st with
               parts := st.parts ++ [HPart.item st.itemLines st.curNum, HPart.emptyP],
               inItem := false, itemLines := [] }
         else st
       | none => st) := by
  have hne : st.itemLines.isEmpty = false := by
    cases hil : st.itemLines with
    | nil => rw [hil] at hLen; simp at hLen
    | cons a l => rfl
  have e3 : hasPfx "### ".data ([] : List Char) = false := rfl
  have e2 : hasPfx "## ".data ([] : List Char) = false := rfl
  have e1 : hasPfx "# ".data ([] : List Char) = false := rfl
  simp only [emailStepWith, hBlank, e1, e2, e3, Bool.false_eq_true, if_false]
  have estrip : stripWs ([] : List Char) = [] := rfl
  have estart : isItemStartL ([] : List Char) = false := rfl
  simp only [estrip, estart, Bool.false_eq_true, if_false, List.head?_nil,
    List.isEmpty_nil, hItem]
  simp only [blankStep, headLine, hList, hne, hItem, Bool.true_and, Bool.and_true,
    Bool.not_false, decide_eq_true_eq]
  have hdec : decide (1 < st.itemLines.length) = true := decide_eq_true hLen
  simp only [hdec, Bool.true_and]
  cases rest with
  | nil =>
    simp only [List.head?_nil]
    cases hst : st
    simp_all
  | cons n rs =>
    simp only [List.head?_cons]
    by_cases hm : (isItemStartL (stripWs n) || (stripWs n).head? == some '#') = true
    · simp [hm, List.append_assoc]
    · simp only [Bool.not_eq_true] at hm
      simp only [hm, Bool.false_eq_true, if_false]
      cases hst : st
      simp_all

/-- Witness for C5's amended theorem: a blank line inside an open two-entry
item, followed immediately by a new numbered-item line. -/
theorem c5_amended_immediate_peek_witness :
    (dropTrailWs ([] : List Char) = [] ∧
      (1 : Nat) < [ItemLine.title "T".data, ItemLine.summary "s".data].length) ∧
    emailStepWith headLine
        ⟨[], false, none, 1, true, [ItemLine.title "T".data, ItemLine.summary "s".data]⟩
        [] [("2. B".data)] =
      (match [("2. B".data)].head? with
       | some nraw =>
         if isItemStartL (stripWs nraw) || (stripWs nraw).head? == some '#' then
           { (⟨[], false, none, 1, true,
                [ItemLine.title "T".data, ItemLine.summary "s".data]⟩ : EmailState) with
               parts := [] ++ [HPart.item [ItemLine.title "T".data, ItemLine.summary "s".data] 1,
                 HPart.emptyP],
               inItem := false, itemLines := [] }
         else ⟨[], false, none, 1, true, [ItemLine.title "T".data, ItemLine.summary "s".data]⟩
       | none => ⟨[], false, none, 1, true, [ItemLine.title "T".data, ItemLine.summary "s".data]⟩) :=
  ⟨⟨rfl, by decide⟩,
    c5_amended_immediate_peek
      ⟨[], false, none, 1, true, [ItemLine.title "T".data, ItemLine.summary "s".data]⟩
      [] [("2. B".data)] rfl rfl (by decide) rfl⟩

/-! ### Claim C6: item-start lines whose title patterns all fail. -/

/-- `NumberedItem` parts. -/
def isItemPart : HPart → Bool
  | HPart.item _ _ => true
  | _ => false

/-- C6 counterexample: `**1. Title` is recognized as a numbered-item start
but matches none of the three title patterns; the code opens NO
`NumberedItem` (no empty-title item) — it renders the line as a fallback
`<ol>` list entry instead. -/
theorem c6_cex_fallback_list :
    isItemStartL "**1. Title".data = true ∧
    titleOf "**1. Title".data = none ∧
    emailParts "**1. Title" =
      [HPart.listOpen LKind.ol, HPart.li "Title".data, HPart.listClose LKind.ol] ∧
    (emailParts "**1. Title").all (fun p => !isItemPart p) = true := by
  exact ⟨by decide, by decide, by decide, by decide⟩

/-- A numbered-item start line cannot carry a header prefix (its first
character is a digit or `*`, never `#`). -/
theorem itemStart_no_header (l : List Char) (h : isItemStartL l = true) :
    hasPfx "# ".data l = false ∧ hasPfx "## ".data l = false ∧
      hasPfx "### ".data l = false := by
  refine ⟨?_, ?_, ?_⟩
  · cases hp : hasPfx "# ".data l with
    | false => rfl
    | true =>
      obtain ⟨t, ht⟩ := (hasPfx_iff_ex _ _).1 hp
      have ht' : l = '#' :: ' ' :: t := ht
      rw [ht'] at h
      have hf : isItemStartL ('#' :: ' ' :: t) = false := rfl
      simp [hf] at h
  · cases hp : hasPfx "## ".data l with
    | false => rfl
    | true =>
      obtain ⟨t, ht⟩ := (hasPfx_iff_ex _ _).1 hp
      have ht' : l = '#' :: '#' :: ' ' :: t := ht
      rw [ht'] at h
      have hf : isItemStartL ('#' :: '#' :: ' ' :: t) = false := rfl
      simp [hf] at h
  · cases hp : hasPfx "### ".data l with
    | false => rfl
    | true =>
      obtain ⟨t, ht⟩ := (hasPfx_iff_ex _ _).1 hp
      have ht' : l = '#' :: '#' :: '#' :: ' ' :: t := ht
      rw [ht'] at h
      have hf : isItemStartL ('#' :: '#' :: '#' :: ' ' :: t) = false := rfl
      simp [hf] at h

/-- C6 amended: a line recognized as a numbered-item start that matches
none of the three title patterns does not open a `NumberedItem` at all (and
raises no error): processed from the default state, it is rendered as a
fallback ordered-list entry — an `<ol>` is opened and the line, its
numeric prefix removed and every `**` stripped, becomes an inline-processed
`<li>`; the item flag and accumulator are untouched. -/
theorem c6_amended_fallback (peek : List (List Char) → Option (List Char))
    (st : EmailState) (raw : List Char) (rest : List (List Char))
    (hItem : st.inItem = false) (hList : st.inList = false)
    (hStart : isItemStartL (dropTrailWs raw) = true)
    (hTitle : titleOf (dropTrailWs raw) = none) :
    emailStepWith peek st raw rest =
      { st with
          parts := st.parts ++ [HPart.listOpen LKind.ol,
            HPart.li (processInlineL (removeStarStar ((dropTrailWs raw).length + 1)
              (dropItemStart (dropTrailWs raw))))],
          inList := true, listType := some LKind.ol } := by
  obtain ⟨h1, h2, h3⟩ := itemStart_no_header _ hStart
  simp only [emailStepWith, h1, h2, h3, hStart, Bool.false_eq_true, if_false, if_true]
  simp only [itemStartStep, hTitle, hItem, hList, Bool.false_eq_true, if_false,
    Bool.false_and, Bool.not_false, if_true]
  simp [List.append_assoc]

/-- Witness for C6's amended theorem at the line `**1. Title` from the
initial state. -/
theorem c6_amended_fallback_witness :
    (initES.inItem = false ∧ initES.inList = false ∧
      isItemStartL (dropTrailWs "**1. Title".data) = true ∧
      titleOf (dropTrailWs "**1. Title".data) = none) ∧
    emailStepWith headLine initES "**1. Title".data [] =
      { initES with
          parts := initES.parts ++ [HPart.listOpen LKind.ol,
            HPart.li (processInlineL (removeStarStar ((dropTrailWs "**1. Title".data).length + 1)
              (dropItemStart (dropTrailWs "**1. Title".data))))],
          inList := true, listType := some LKind.ol } :=
  ⟨⟨rfl, rfl, by decide, by decide⟩,
    c6_amended_fallback headLine initES "**1. Title".data [] rfl rfl (by decide) (by decide)⟩

/-! ### Claim C7: links in the plain-text rendering. -/

theorem splitOnNl_no_nl (l : List Char) (h : ∀ c ∈ l, c ≠ '\n') : splitOnNl l = [l] := by
  induction l with
  | nil => rfl
  | cons c rest ih =>
    have hc := h c (List.mem_cons_self c rest)
    have hr : ∀ x ∈ rest, x ≠ '\n' := fun x hx => h x (List.mem_cons_of_mem c hx)
    simp [splitOnNl, hc, ih hr]

theorem subPair_id (m : Char) (fuel : Nat) (s : List Char) (h : ∀ c ∈ s, c ≠ m) :
    subPair m fuel s = s := by
  induction fuel generalizing s with
  | zero => rfl
  | succ n ih =>
    cases s with
    | nil => rfl
    | cons c rest =>
      have hc := h c (List.mem_cons_self c rest)
      have hr : ∀ x ∈ rest, x ≠ m := fun x hx => h x (List.mem_cons_of_mem c hx)
      simp [subPair, pairMatchAt_ne m c rest hc, ih rest hr]

theorem subSingle_id (m : Char) (fuel : Nat) (prev : Option Char) (s : List Char)
    (h : ∀ c ∈ s, c ≠ m) : subSingle m fuel prev s = s := by
  induction fuel generalizing prev s with
  | zero => rfl
  | succ n ih =>
    cases s with
    | nil => rfl
    | cons c rest =>
      have hc := h c (List.mem_cons_self c rest)
      have hr : ∀ x ∈ rest, x ≠ m := fun x hx => h x (List.mem_cons_of_mem c hx)
      simp [subSingle, singleMatchAt_ne m prev c rest hc, ih (some c) rest hr]

theorem subLinkKeep_nil (f : Nat) : subLinkKeep f [] = [] := by
  cases f <;> rfl

theorem subLinkParen_nil (f : Nat) : subLinkParen f [] = [] := by
  cases f <;> rfl

theorem splitAtChar_pre (x : Char) (a b : List Char) (h : ∀ c ∈ a, c ≠ x) :
    splitAtChar x (a ++ x :: b) = some (a, b) := by
  induction a with
  | nil => simp [splitAtChar]
  | cons c cs ih =>
    have hc := h c (List.mem_cons_self c cs)
    have hr : ∀ y ∈ cs, y ≠ x := fun y hy => h y (List.mem_cons_of_mem c hy)
    simp [splitAtChar, hc, ih hr]

theorem linkMatchAt_full (t u r : List Char) (ht : t ≠ []) (hu : u ≠ [])
    (ht2 : ∀ c ∈ t, c ≠ ']') (hu2 : ∀ c ∈ u, c ≠ ')') :
    linkMatchAt ('[' :: (t ++ ']' :: '(' :: (u ++ ')' :: r))) = some (t, u, r) := by
  simp [linkMatchAt, splitAtChar_pre ']' t _ ht2, splitAtChar_pre ')' u r hu2, ht, hu]

theorem subLinkParen_exact (f : Nat) (t u : List Char) (ht : t ≠ []) (hu : u ≠ [])
    (ht2 : ∀ c ∈ t, c ≠ ']') (hu2 : ∀ c ∈ u, c ≠ ')') :
    subLinkParen (f + 1) ('[' :: (t ++ ']' :: '(' :: (u ++ [')']))) =
      t ++ ' ' :: '(' :: (u ++ [')']) := by
  have hm := linkMatchAt_full t u [] ht hu ht2 hu2
  simp only [List.cons_append, List.append_assoc] at hm ⊢
  simp [subLinkParen, hm, subLinkParen_nil]

theorem subLinkKeep_bullet (f : Nat) (t u : List Char) (ht : t ≠ []) (hu : u ≠ [])
    (ht2 : ∀ c ∈ t, c ≠ ']') (hu2 : ∀ c ∈ u, c ≠ ')') :
    subLinkKeep (f + 3) ('-' :: ' ' :: '[' :: (t ++ ']' :: '(' :: (u ++ [')']))) =
      '-' :: ' ' :: t := by
  have hm := linkMatchAt_full t u [] ht hu ht2 hu2
  simp only [List.cons_append, List.append_assoc] at hm ⊢
  simp [subLinkKeep, linkMatchAt_ne '-' _ (by decide), linkMatchAt_ne ' ' _ (by decide), hm,
    subLinkKeep_nil]

theorem dropLeadWs_cons (c : Char) (l : List Char) (h : isWs c = false) :
    dropLeadWs (c :: l) = c :: l := by
  simp [dropLeadWs, List.dropWhile_cons, h]

theorem dropTrailWs_last (l : List Char) (c : Char) (h : isWs c = false) :
    dropTrailWs (l ++ [c]) = l ++ [c] := by
  simp [dropTrailWs, List.dropWhile_cons, h]

theorem stripWs_eq_self (l : List Char)
    (h1 : ∀ c, l.head? = some c → isWs c = false)
    (h2 : ∀ c, l.getLast? = some c → isWs c = false) : stripWs l = l := by
  cases l with
  | nil => rfl
  | cons a mid =>
    have ha : isWs a = false := h1 a rfl
    have hne : a :: mid ≠ [] := by simp
    obtain ⟨l0, b, hab⟩ : ∃ l0 b, a :: mid = l0 ++ [b] :=
      ⟨(a :: mid).dropLast, (a :: mid).getLast hne,
        (List.dropLast_append_getLast hne).symm⟩
    have hb : isWs b = false := h2 b (by rw [hab]; simp)
    rw [stripWs, hab, dropTrailWs_last _ _ hb, ← hab]
    exact dropLeadWs_cons a mid ha

theorem getLast?_snoc_form (l : List Char) (c : Char) : (l ++ [c]).getLast? = some c := by
  rw [List.getLast?_append_of_ne_nil _ (by simp : ([c] : List Char) ≠ [])]
  rfl

theorem getLast?_cons_cons_of_ne_nil (a b : Char) (l : List Char) (h : l ≠ []) :
    (a :: b :: l).getLast? = l.getLast? := by
  rw [show a :: b :: l = [a, b] ++ l from rfl]
  exact List.getLast?_append_of_ne_nil _ h

theorem mem_linkline (c : Char) (t u : List Char)
    (hc : c ∈ '[' :: (t ++ ']' :: '(' :: (u ++ [')']))) :
    c = '[' ∨ c ∈ t ∨ c = ']' ∨ c = '(' ∨ c ∈ u ∨ c = ')' := by
  simp only [List.mem_cons, List.mem_append] at hc
  tauto

theorem mem_parenline (c : Char) (t u : List Char)
    (hc : c ∈ t ++ ' ' :: '(' :: (u ++ [')'])) :
    c ∈ t ∨ c = ' ' ∨ c = '(' ∨ c ∈ u ∨ c = ')' := by
  simp only [List.mem_cons, List.mem_append] at hc
  tauto

theorem fmtLine_para_link (t u : List Char) (htne : t ≠ []) (hune : u ≠ [])
    (ht2 : ∀ c ∈ t, c ≠ ']') (hu2 : ∀ c ∈ u, c ≠ ')')
    (hstar : ∀ c ∈ t ++ ' ' :: '(' :: (u ++ [')']), c ≠ '*')
    (hund : ∀ c ∈ t ++ ' ' :: '(' :: (u ++ [')']), c ≠ '_')
    (hstrip : stripWs ('[' :: (t ++ ']' :: '(' :: (u ++ [')']))) =
      '[' :: (t ++ ']' :: '(' :: (u ++ [')']))) :
    fmtLine ('[' :: (t ++ ']' :: '(' :: (u ++ [')']))) = t ++ ' ' :: '(' :: (u ++ [')']) := by
  have b1 : hasPfx "### ".data ('[' :: (t ++ ']' :: '(' :: (u ++ [')']))) = false := rfl
  have b2 : hasPfx "## ".data ('[' :: (t ++ ']' :: '(' :: (u ++ [')']))) = false := rfl
  have b3 : hasPfx "# ".data ('[' :: (t ++ ']' :: '(' :: (u ++ [')']))) = false := rfl
  have b4 : numDotSpace ('[' :: (t ++ ']' :: '(' :: (u ++ [')']))) = false := rfl
  have b5 : hasPfx "- ".data ('[' :: (t ++ ']' :: '(' :: (u ++ [')']))) = false := rfl
  have b6 : hasPfx "* ".data ('[' :: (t ++ ']' :: '(' :: (u ++ [')']))) = false := rfl
  have b7 : ('[' :: (t ++ ']' :: '(' :: (u ++ [')']))).isEmpty = false := rfl
  simp only [fmtLine, hstrip, b1, b2, b3, b4, b5, b6, b7, Bool.false_eq_true, if_false,
    Bool.or_self, Bool.false_or]
  rw [subLinkParen_exact _ t u htne hune ht2 hu2]
  simp only [stripInlineMarkers]
  rw [subPair_id '*' _ _ hstar, subPair_id '_' _ _ hund,
    subSingle_id '*' _ _ _ hstar, subSingle_id '_' _ _ _ hund]

theorem fmtLine_list_link (t u : List Char) (htne : t ≠ []) (hune : u ≠ [])
    (ht2 : ∀ c ∈ t, c ≠ ']') (hu2 : ∀ c ∈ u, c ≠ ')')
    (hstar2 : ∀ c ∈ '-' :: ' ' :: t, c ≠ '*') (hund2 : ∀ c ∈ '-' :: ' ' :: t, c ≠ '_')
    (hstrip : stripWs ('-' :: ' ' :: '[' :: (t ++ ']' :: '(' :: (u ++ [')']))) =
      '-' :: ' ' :: '[' :: (t ++ ']' :: '(' :: (u ++ [')']))) :
    fmtLine ('-' :: ' ' :: '[' :: (t ++ ']' :: '(' :: (u ++ [')']))) = '-' :: ' ' :: t := by
  have b1 : hasPfx "### ".data ('-' :: ' ' :: '[' :: (t ++ ']' :: '(' :: (u ++ [')']))) = false := rfl
  have b2 : hasPfx "## ".data ('-' :: ' ' :: '[' :: (t ++ ']' :: '(' :: (u ++ [')']))) = false := rfl
  have b3 : hasPfx "# ".data ('-' :: ' ' :: '[' :: (t ++ ']' :: '(' :: (u ++ [')']))) = false := rfl
  have b4 : numDotSpace ('-' :: ' ' :: '[' :: (t ++ ']' :: '(' :: (u ++ [')']))) = false := rfl
  have b5 : hasPfx "- ".data ('-' :: ' ' :: '[' :: (t ++ ']' :: '(' :: (u ++ [')']))) = true := rfl
  simp only [fmtLine, hstrip, b1, b2, b3, b4, b5, Bool.false_eq_true, if_false,
    Bool.false_or, Bool.true_or, if_true]
  have efuel : ('-' :: ' ' :: '[' :: (t ++ ']' :: '(' :: (u ++ [')']))).length + 1 =
      (t.length + u.length + 4) + 3 := by
    simp only [List.length_cons, List.length_append, List.length_nil]
    omega
  rw [efuel, subLinkKeep_bullet _ t u htne hune ht2 hu2]
  simp only [stripInlineMarkers]
  rw [subPair_id '*' _ _ hstar2, subPair_id '_' _ _ hund2,
    subSingle_id '*' _ _ _ hstar2, subSingle_id '_' _ _ _ hund2]

/-- C7 counterexample: on a bullet list line, a markdown link is reduced to
its inner text WITHOUT the URL — `format_markdown_text "- [A](u)"` is
`"- A"`, not the claimed `"- A (u)"`. -/
theorem c7_cex_list_link_drops_url :
    format_markdown_text "- [A](u)" = "- A" ∧ ("- A" : String) ≠ "- A (u)" :=
  ⟨rfl, by decide⟩

/-- C7 amended: in the plain-text rendering, a markdown link `[t](u)` on a
paragraph (non-list) line is rendered `t (u)`; on a bullet list line it is
stripped to its inner text only, the URL being dropped: `- [t](u)` renders
as `- t`.  (Hypotheses: `t` nonempty without `]`, `*`, `_`, newline, and not
starting or ending in whitespace; `u` nonempty without `)`, `*`, `_`,
newline.) -/
theorem c7_amended_link_rendering (t u : List Char) (htne : t ≠ []) (hune : u ≠ [])
    (ht : ∀ c ∈ t, c ≠ ']' ∧ c ≠ '*' ∧ c ≠ '_' ∧ c ≠ '\n')
    (hu : ∀ c ∈ u, c ≠ ')' ∧ c ≠ '*' ∧ c ≠ '_' ∧ c ≠ '\n')
    (hth : ∀ c, t.head? = some c → isWs c = false)
    (htl : ∀ c, t.getLast? = some c → isWs c = false) :
    format_markdown_text ⟨'[' :: (t ++ ']' :: '(' :: (u ++ [')']))⟩ =
      ⟨t ++ ' ' :: '(' :: (u ++ [')'])⟩ ∧
    format_markdown_text ⟨'-' :: ' ' :: '[' :: (t ++ ']' :: '(' :: (u ++ [')']))⟩ =
      ⟨'-' :: ' ' :: t⟩ := by
  have ht2 : ∀ c ∈ t, c ≠ ']' := fun c hc => (ht c hc).1
  have htS : ∀ c ∈ t, c ≠ '*' := fun c hc => (ht c hc).2.1
  have htU : ∀ c ∈ t, c ≠ '_' := fun c hc => (ht c hc).2.2.1
  have htN : ∀ c ∈ t, c ≠ '\n' := fun c hc => (ht c hc).2.2.2
  have hu2 : ∀ c ∈ u, c ≠ ')' := fun c hc => (hu c hc).1
  have huS : ∀ c ∈ u, c ≠ '*' := fun c hc => (hu c hc).2.1
  have huU : ∀ c ∈ u, c ≠ '_' := fun c hc => (hu c hc).2.2.1
  have huN : ∀ c ∈ u, c ≠ '\n' := fun c hc => (hu c hc).2.2.2
  have hstar : ∀ c ∈ t ++ ' ' :: '(' :: (u ++ [')']), c ≠ '*' := by
    intro c hc
    rcases mem_parenline c t u hc with h | rfl | rfl | h | rfl
    · exact htS c h
    · decide
    · decide
    · exact huS c h
    · decide
  have hund : ∀ c ∈ t ++ ' ' :: '(' :: (u ++ [')']), c ≠ '_' := by
    intro c hc
    rcases mem_parenline c t u hc with h | rfl | rfl | h | rfl
    · exact htU c h
    · decide
    · decide
    · exact huU c h
    · decide
  have hnlP : ∀ c ∈ ('[' :: (t ++ ']' :: '(' :: (u ++ [')']))), c ≠ '\n' := by
    intro c hc
    rcases mem_linkline c t u hc with rfl | h | rfl | rfl | h | rfl
    · decide
    · exact htN c h
    · decide
    · decide
    · exact huN c h
    · decide
  have hlastP : ('[' :: (t ++ ']' :: '(' :: (u ++ [')']))).getLast? = some ')' := by
    rw [show '[' :: (t ++ ']' :: '(' :: (u ++ [')'])) =
        ('[' :: (t ++ ']' :: '(' :: u)) ++ [')'] from by simp]
    exact getLast?_snoc_form _ _
  have hstripP : stripWs ('[' :: (t ++ ']' :: '(' :: (u ++ [')']))) =
      '[' :: (t ++ ']' :: '(' :: (u ++ [')'])) := by
    refine stripWs_eq_self _ ?_ ?_
    · intro c hc
      simp only [List.head?_cons, Option.some.injEq] at hc
      subst hc
      rfl
    · intro c hc
      rw [hlastP] at hc
      cases hc
      rfl
  have hstar2 : ∀ c ∈ '-' :: ' ' :: t, c ≠ '*' := by
    intro c hc
    rcases List.mem_cons.1 hc with rfl | hc'
    · decide
    rcases List.mem_cons.1 hc' with rfl | hc''
    · decide
    · exact htS c hc''
  have hund2 : ∀ c ∈ '-' :: ' ' :: t, c ≠ '_' := by
    intro c hc
    rcases List.mem_cons.1 hc with rfl | hc'
    · decide
    rcases List.mem_cons.1 hc' with rfl | hc''
    · decide
    · exact htU c hc''
  have hnlL : ∀ c ∈ ('-' :: ' ' :: '[' :: (t ++ ']' :: '(' :: (u ++ [')']))), c ≠ '\n' := by
    intro c hc
    rcases List.mem_cons.1 hc with rfl | hc'
    · decide
    rcases List.mem_cons.1 hc' with rfl | hc''
    · decide
    · exact hnlP c hc''
  have hlastL : ('-' :: ' ' :: '[' :: (t ++ ']' :: '(' :: (u ++ [')']))).getLast? = some ')' := by
    rw [getLast?_cons_cons_of_ne_nil _ _ _ (by simp)]
    exact hlastP
  have hstripL : stripWs ('-' :: ' ' :: '[' :: (t ++ ']' :: '(' :: (u ++ [')']))) =
      '-' :: ' ' :: '[' :: (t ++ ']' :: '(' :: (u ++ [')'])) := by
    refine stripWs_eq_self _ ?_ ?_
    · intro c hc
      simp only [List.head?_cons, Option.some.injEq] at hc
      subst hc
      rfl
    · intro c hc
      rw [hlastL] at hc
      cases hc
      rfl
  constructor
  · unfold format_markdown_text
    rw [if_neg (by exact List.cons_ne_nil _ _)]
    refine congrArg String.mk ?_
    rw [show (⟨'[' :: (t ++ ']' :: '(' :: (u ++ [')']))⟩ : String).data =
        '[' :: (t ++ ']' :: '(' :: (u ++ [')'])) from rfl]
    rw [splitOnNl_no_nl _ hnlP, List.map_cons, List.map_nil]
    rw [show joinNl [fmtLine ('[' :: (t ++ ']' :: '(' :: (u ++ [')'])))] =
        fmtLine ('[' :: (t ++ ']' :: '(' :: (u ++ [')']))) from rfl]
    rw [fmtLine_para_link t u htne hune ht2 hu2 hstar hund hstripP]
    refine stripWs_eq_self _ ?_ ?_
    · intro c hc
      rw [List.head?_append_of_ne_nil _ htne] at hc
      exact hth c hc
    · intro c hc
      rw [show t ++ ' ' :: '(' :: (u ++ [')']) = (t ++ ' ' :: '(' :: u) ++ [')'] from by simp,
        getLast?_snoc_form] at hc
      cases hc
      rfl
  · unfold format_markdown_text
    rw [if_neg (by exact List.cons_ne_nil _ _)]
    refine congrArg String.mk ?_
    rw [show (⟨'-' :: ' ' :: '[' :: (t ++ ']' :: '(' :: (u ++ [')']))⟩ : String).data =
        '-' :: ' ' :: '[' :: (t ++ ']' :: '(' :: (u ++ [')'])) from rfl]
    rw [splitOnNl_no_nl _ hnlL, List.map_cons, List.map_nil]
    rw [show joinNl [fmtLine ('-' :: ' ' :: '[' :: (t ++ ']' :: '(' :: (u ++ [')'])))] =
        fmtLine ('-' :: ' ' :: '[' :: (t ++ ']' :: '(' :: (u ++ [')'])))  from rfl]
    rw [fmtLine_list_link t u htne hune ht2 hu2 hstar2 hund2 hstripL]
    refine stripWs_eq_self _ ?_ ?_
    · intro c hc
      simp only [List.head?_cons, Option.some.injEq] at hc
      subst hc
      rfl
    · intro c hc
      rw [getLast?_cons_cons_of_ne_nil _ _ _ htne] at hc
      exact htl c hc

theorem head_fact_of (a : Char) (l : List Char) (h : isWs a = false) :
    ∀ c, (a :: l).head? = some c → isWs c = false := by
  intro c hc
  rw [List.head?_cons, Option.some.injEq] at hc
  subst hc
  exact h

theorem last_fact_of (l : List Char) (b : Char) (h : isWs b = false) :
    ∀ c, (l ++ [b]).getLast? = some c → isWs c = false := by
  intro c hc
  rw [getLast?_snoc_form, Option.some.injEq] at hc
  subst hc
  exact h

/-- Witness for C7's amended theorem: the spec's link round-trip example. -/
theorem c7_amended_link_rendering_witness :
    ("Anthropic".data ≠ [] ∧ "https://anthropic.com".data ≠ []) ∧
    format_markdown_text "[Anthropic](https://anthropic.com)" =
      "Anthropic (https://anthropic.com)" ∧
    format_markdown_text "- [Anthropic](https://anthropic.com)" = "- Anthropic" :=
  ⟨⟨by decide, by decide⟩, by
    have h := c7_amended_link_rendering "Anthropic".data "https://anthropic.com".data
      (by decide) (by decide) (by decide) (by decide)
      (head_fact_of 'A' "nthropic".data rfl)
      (last_fact_of "Anthropi".data 'c' rfl)
    exact ⟨h.1, h.2⟩⟩

/-! ### Claim C8: totality of the public operations. -/

/-- Whether an `Except` result is a success. -/
def exceptOk (e : Except String String) : Bool :=
  match e with
  | Except.ok _ => true
  | Except.error _ => false

/-- C8 counterexample: `summarize_content("hi", 0)` reaches
`textwrap.shorten` with `width = 0`, which raises
`ValueError: invalid width 0 (must be > 0)` — the operation is not total
for every `max_chars` integer. -/
theorem c8_cex_zero_width :
    summarize_content "hi" 0 = Except.error "invalid width (must be > 0)" ∧
      exceptOk (summarize_content "hi" 0) = false :=
  ⟨rfl, rfl⟩

/-- C8 amended: `summarize_content` never raises when `max_chars ≥ 1`
(for `max_chars ≤ 0` it raises `ValueError` from `textwrap.shorten` as
soon as the sanitized content is longer than `max_chars`); the remaining
public renderer operations are embedded as total functions — nothing in
their bodies can raise. -/
theorem textwrapShorten_ok (t : List Char) (w : Int) (h : ¬ w ≤ 0) :
    exceptOk (Except.map (fun l => (⟨l⟩ : String)) (textwrapShorten t w)) = true := by
  unfold textwrapShorten
  rw [if_neg h]
  dsimp only
  split <;> rfl

theorem c8_amended_total_for_positive_width (content : String) (maxChars : Int)
    (h : 1 ≤ maxChars) : exceptOk (summarize_content content maxChars) = true := by
  unfold summarize_content
  dsimp only
  by_cases hle : (((sanitize_plain_text content).data.length : Int)) ≤ maxChars
  · rw [if_pos hle]
    rfl
  · rw [if_neg hle]
    exact textwrapShorten_ok _ _ (by omega)

/-- Witness for C8's amended theorem. -/
theorem c8_amended_total_for_positive_width_witness :
    (1 : Int) ≤ 3 ∧ exceptOk (summarize_content "hi" 3) = true :=
  ⟨by decide, c8_amended_total_for_positive_width "hi" 3 (by decide)⟩
